import Mathlib

/-!
Verification development for the tangent repository: a shallow embedding of
the bounded linear history log (packages/core/src/history.ts), the dev-mode
provider state machine (TangentProviderDev: register, updateValue,
unsavedChanges, saveAll, saveSection, resetSection, undo, redo), and the
per-process Value Store (modelled from the spec, since the store module is
not part of the provided sources).

JavaScript objects and Maps are embedded as insertion-ordered association
lists; a property whose value is the JavaScript undefined is represented by
an entry carrying none, while a missing property has no entry at all (both
read back as none). The asynchronous onSave callbacks are embedded as a
pure oracle giving the success or failure of each (entity, key, value)
persistence attempt; onUpdate callback invocations and history-state
refreshes are recorded as an event list returned next to the new state.
-/

namespace Tangent

/-- TangentValue from types.ts: number, string or boolean. -/
inductive TVal where
  | num (n : Int)
  | str (s : String)
  | bool (b : Bool)
deriving DecidableEq, Repr

/-- A JavaScript object used as a configuration: insertion-ordered list of
properties; a property may be present with the undefined value (none). -/
abbrev JsObj := List (String × Option TVal)

/-- Lookup in an insertion-ordered string-keyed map (JavaScript Map.get or
object property access at the raw level): first matching key. -/
def mapGet {α : Type} : List (String × α) → String → Option α
  | [], _ => none
  | (k, v) :: rest, key => if k = key then some v else mapGet rest key

/-- Update in an insertion-ordered string-keyed map (JavaScript Map.set, or
object spread update): replaces the value in place when the key is present,
appends otherwise. -/
def mapSet {α : Type} : List (String × α) → String → α → List (String × α)
  | [], key, v => [(key, v)]
  | (k, w) :: rest, key, v =>
    if k = key then (k, v) :: rest else (k, w) :: mapSet rest key v

/-- JavaScript Map.delete. -/
def mapDel {α : Type} : List (String × α) → String → List (String × α)
  | [], _ => []
  | (k, w) :: rest, key => if k = key then rest else (k, w) :: mapDel rest key

/-- JavaScript property read cfg[key]: a missing property and a property
set to undefined both read as undefined (none). -/
def jsGet (cfg : JsObj) (key : String) : Option TVal :=
  match mapGet cfg key with
  | some v => v
  | none => none

/-- JavaScript Object.keys: the property names in insertion order. -/
def objKeys (cfg : JsObj) : List String := cfg.map Prod.fst

theorem mapGet_mapSet_self {α : Type} (l : List (String × α)) (k : String) (v : α) :
    mapGet (mapSet l k v) k = some v := by
  induction l with
  | nil => simp [mapGet, mapSet]
  | cons p rest ih =>
    obtain ⟨k1, v1⟩ := p
    by_cases h : k1 = k <;> simp [mapGet, mapSet, h, ih]

theorem mapGet_mapSet_ne {α : Type} (l : List (String × α)) (k k' : String) (v : α)
    (h : k' ≠ k) : mapGet (mapSet l k v) k' = mapGet l k' := by
  induction l with
  | nil => simp [mapGet, mapSet, Ne.symm h]
  | cons p rest ih =>
    obtain ⟨k1, v1⟩ := p
    by_cases h1 : k1 = k
    · subst h1
      simp [mapGet, mapSet, Ne.symm h]
    · simp [mapGet, mapSet, h1, ih]

theorem mapSet_mapSet_self {α : Type} (l : List (String × α)) (k : String) (a b : α) :
    mapSet (mapSet l k a) k b = mapSet l k b := by
  induction l with
  | nil => simp [mapSet]
  | cons p rest ih =>
    obtain ⟨k1, v1⟩ := p
    by_cases h : k1 = k <;> simp [mapSet, h, ih]

theorem mapSet_eq_self {α : Type} (l : List (String × α)) (k : String) (v : α)
    (h : mapGet l k = some v) : mapSet l k v = l := by
  induction l with
  | nil => simp [mapGet] at h
  | cons p rest ih =>
    obtain ⟨k1, v1⟩ := p
    by_cases h1 : k1 = k
    · subst h1
      simp [mapGet] at h
      simp [mapSet, h]
    · simp [mapGet, h1] at h
      simp [mapSet, h1, ih h]

theorem mapGet_mem {α : Type} {l : List (String × α)} {k : String} {v : α}
    (h : mapGet l k = some v) : (k, v) ∈ l := by
  induction l with
  | nil => simp [mapGet] at h
  | cons p rest ih =>
    obtain ⟨k1, v1⟩ := p
    by_cases h1 : k1 = k
    · subst h1
      simp [mapGet] at h
      simp [h]
    · simp [mapGet, h1] at h
      exact List.mem_cons_of_mem _ (ih h)

theorem mem_mapGet {α : Type} {l : List (String × α)} {k : String} {v : α}
    (hnd : (l.map Prod.fst).Nodup) (h : (k, v) ∈ l) : mapGet l k = some v := by
  induction l with
  | nil => simp at h
  | cons p rest ih =>
    obtain ⟨k1, v1⟩ := p
    rw [List.map_cons, List.nodup_cons] at hnd
    rcases List.mem_cons.mp h with h | h
    · cases h
      simp [mapGet]
    · have hk : ¬ k1 = k := by
        intro he
        subst he
        exact hnd.1 (List.mem_map.mpr ⟨(k1, v), h, rfl⟩)
      simp [mapGet, hk, ih hnd.2 h]

/-! ## Bounded linear history log (packages/core/src/history.ts) -/

/-- HistoryEntry from history.ts. -/
structure HistoryEntry where
  id : String
  key : String
  oldValue : Option TVal
  newValue : Option TVal
  timestamp : Nat
deriving DecidableEq, Repr

/-- The module-level mutable state of history.ts: the entry list and the
cursor historyIndex (initially -1). -/
structure HistState where
  history : List HistoryEntry
  historyIndex : Int
deriving DecidableEq, Repr

def MAX_HISTORY : Nat := 100

/-- The initial module state of history.ts: empty log, cursor -1. -/
def emptyHist : HistState := ⟨[], -1⟩

/-- pushHistory from history.ts: discard entries after the cursor when not
at the tail, append the new entry, then either evict the oldest entry
(when over MAX_HISTORY, without advancing the cursor) or advance the
cursor. Date.now() is passed in as the now argument. -/
def pushHistory (h : HistState) (id key : String) (oldValue newValue : Option TVal)
    (now : Nat) : HistState :=
  let hist :=
    if h.historyIndex < (h.history.length : Int) - 1 then
      h.history.take (h.historyIndex + 1).toNat
    else
      h.history
  let hist := hist ++ [⟨id, key, oldValue, newValue, now⟩]
  if hist.length > MAX_HISTORY then
    { history := hist.drop 1, historyIndex := h.historyIndex }
  else
    { history := hist, historyIndex := h.historyIndex + 1 }

/-- canUndo from history.ts. -/
def canUndo (h : HistState) : Bool := decide (0 ≤ h.historyIndex)

/-- canRedo from history.ts. -/
def canRedo (h : HistState) : Bool := decide (h.historyIndex < (h.history.length : Int) - 1)

/-- undo from history.ts (imported as undoHistory by the provider): when
canUndo, return the entry at the cursor and decrement the cursor. -/
def undoHistory (h : HistState) : Option HistoryEntry × HistState :=
  if canUndo h then
    (h.history.get? h.historyIndex.toNat, { h with historyIndex := h.historyIndex - 1 })
  else
    (none, h)

/-- redo from history.ts (imported as redoHistory by the provider): when
canRedo, increment the cursor and return the entry now at the cursor. -/
def redoHistory (h : HistState) : Option HistoryEntry × HistState :=
  if canRedo h then
    ((h.history.get? (h.historyIndex + 1).toNat),
      { h with historyIndex := h.historyIndex + 1 })
  else
    (none, h)

/-- Fold a batch of pushHistory calls, each argument tuple packaged as a
HistoryEntry record. -/
def pushMany (h : HistState) (es : List HistoryEntry) : HistState :=
  es.foldl (fun acc e => pushHistory acc e.id e.key e.oldValue e.newValue e.timestamp) h

/-- The entries returned by n successive undo calls on the log. -/
def undoOutputs : Nat → HistState → List HistoryEntry
  | 0, _ => []
  | n + 1, h =>
    match undoHistory h with
    | (some e, h2) => e :: undoOutputs n h2
    | (none, h2) => undoOutputs n h2

/-! ## Provider data model (types.ts and TangentProviderDev) -/

/-- TangentRegistration from types.ts, with the onUpdate and onSave
callbacks factored out of the record (onUpdate invocations are traced as
events, onSave outcomes are an oracle argument of the save operations). -/
structure Registration where
  id : String
  filePath : String
  originalConfig : JsObj
  currentConfig : JsObj
  sourceConfig : JsObj
deriving DecidableEq, Repr

/-- HistoryState from types.ts: the canUndo and canRedo flags cached in the
React state of the provider. -/
structure HistoryState where
  canUndo : Bool
  canRedo : Bool
deriving DecidableEq, Repr

/-- UnsavedChange from types.ts. -/
structure UnsavedChange where
  id : String
  key : String
  oldValue : Option TVal
  newValue : Option TVal
deriving DecidableEq, Repr

/-- The registrations Map of the provider. -/
abbrev RegMap := List (String × Registration)

/-- Observable callback events of one provider operation: an onUpdate
invocation on the entity owning id, or a history-state refresh
(a setHistoryState call made by updateHistoryState). -/
inductive Ev where
  | onUpdate (id key : String) (value : Option TVal)
  | refresh
deriving DecidableEq, Repr

/-- The React state of TangentProviderDev together with the module state of
history.ts and of the Value Store that it drives. -/
structure ProviderState where
  registrations : RegMap
  store : List (String × JsObj)
  hist : HistState
  historyState : HistoryState
  isSaving : Bool
deriving DecidableEq, Repr

/-! ## Per-process Value Store -/

/-- Modelled from the spec: the store module (imported by the provider as
getStoredConfig) is not among the provided sources. Spec section 4.2: a
durable mapping from entity identifier to its current Configuration, with
get(entityId) returning the Configuration or absent. -/
def getStoredConfig (store : List (String × JsObj)) (id : String) : Option JsObj :=
  mapGet store id

/-- Modelled from the spec: the store module (imported by the provider as
setStoredConfig) is not among the provided sources. Spec section 4.2:
set(entityId, Configuration) is a whole replace of the entry. -/
def setStoredConfig (store : List (String × JsObj)) (id : String) (cfg : JsObj) :
    List (String × JsObj) :=
  mapSet store id cfg

/-- Modelled from the spec: the store module (imported by the provider as
updateStoredConfig) is not among the provided sources. Spec section 4.2:
update(entityId, key, value) merges one key into the entity entry (an
absent entry is treated as empty). -/
def updateStoredConfig (store : List (String × JsObj)) (id key : String)
    (value : Option TVal) : List (String × JsObj) :=
  mapSet store id (mapSet ((mapGet store id).getD []) key value)

/-! ## Provider operations (TangentProviderDev) -/

/-- updateHistoryState from TangentProviderDev: re-derive the cached
canUndo and canRedo flags from the history module and publish them through
setHistoryState (traced as a refresh event). -/
def updateHistoryState (s : ProviderState) : ProviderState × List Ev :=
  ({ s with historyState := { canUndo := canUndo s.hist, canRedo := canRedo s.hist } },
   [Ev.refresh])

/-- register from TangentProviderDev: seed the Value Store with the
original configuration when no stored configuration exists, then insert the
registration record with currentConfig taken from the stored configuration
(falling back to a copy of the original) and sourceConfig set to the
original configuration. -/
def register (s : ProviderState) (registration : Registration) : ProviderState :=
  let storedConfig := getStoredConfig s.store registration.id
  let store :=
    match storedConfig with
    | none => setStoredConfig s.store registration.id registration.originalConfig
    | some _ => s.store
  { s with
    store := store
    registrations :=
      mapSet s.registrations registration.id
        { registration with
          currentConfig := storedConfig.getD registration.originalConfig
          sourceConfig := registration.originalConfig } }

/-- unregister from TangentProviderDev. -/
def unregister (s : ProviderState) (id : String) : ProviderState :=
  { s with registrations := mapDel s.registrations id }

/-- updateValue from TangentProviderDev: read the old value through the
registration, push a history entry and refresh the cached history state
when the value changed and skipHistory is false, merge the value into the
Value Store, then update the currentConfig of the registration (when
present) and invoke its onUpdate. Date.now() is passed in as now. -/
def updateValue (s : ProviderState) (id key : String) (value : TVal)
    (skipHistory : Bool) (now : Nat) : ProviderState × List Ev :=
  let registration := mapGet s.registrations id
  let oldValue : Option TVal :=
    match registration with
    | some reg => jsGet reg.currentConfig key
    | none => none
  let (s, evs) :=
    if ¬skipHistory ∧ oldValue ≠ some value then
      updateHistoryState { s with hist := pushHistory s.hist id key oldValue (some value) now }
    else
      (s, ([] : List Ev))
  let s := { s with store := updateStoredConfig s.store id key (some value) }
  match mapGet s.registrations id with
  | some reg =>
    ({ s with
        registrations :=
          mapSet s.registrations id
            { reg with currentConfig := mapSet reg.currentConfig key (some value) } },
     evs ++ [Ev.onUpdate id key (some value)])
  | none => (s, evs)

/-- The unsavedChanges computation of TangentProviderDev over a given
registrations map: walk every registration and every key of its
currentConfig, collecting the pairs whose current value differs from the
source value. -/
def unsavedChangesOf (regs : RegMap) : List UnsavedChange :=
  regs.flatMap fun p =>
    (objKeys p.2.currentConfig).filterMap fun key =>
      let currentValue := jsGet p.2.currentConfig key
      let sourceValue := jsGet p.2.sourceConfig key
      if currentValue ≠ sourceValue then
        some { id := p.1, key := key, oldValue := sourceValue, newValue := currentValue }
      else
        none

/-- unsavedChanges from TangentProviderDev: recomputed on every render
from the current registrations. -/
def unsavedChanges (s : ProviderState) : List UnsavedChange :=
  unsavedChangesOf s.registrations

/-- The sequential await loop of saveAll: for each change look the
registration up in the snapshot and, when present, run its onSave (the ok
oracle); stop at the first rejected onSave. Returns whether the batch
completed and the list of changes whose onSave was invoked. -/
def runSaves (ok : String → String → Option TVal → Bool) :
    List UnsavedChange → RegMap → Bool × List UnsavedChange
  | [], _ => (true, [])
  | c :: rest, regs =>
    match mapGet regs c.id with
    | some _ =>
      if ok c.id c.key c.newValue then
        let r := runSaves ok rest regs
        (r.1, c :: r.2)
      else
        (false, [c])
    | none =>
      runSaves ok rest regs

/-- saveAll from TangentProviderDev: a no-op while isSaving or with no
unsaved changes; otherwise run every onSave sequentially and, when the
whole batch succeeded, overwrite the sourceConfig of every registration
with its currentConfig; on failure log the error (the returned flag) and
change nothing else; isSaving is reset in both cases (finally). Returns
the state, the changes whose onSave was invoked, and whether the failure
path logged an error. -/
def saveAll (s : ProviderState) (ok : String → String → Option TVal → Bool) :
    ProviderState × List UnsavedChange × Bool :=
  if s.isSaving ∨ (unsavedChanges s).length = 0 then
    (s, [], false)
  else
    let r := runSaves ok (unsavedChanges s) s.registrations
    if r.1 then
      ({ s with
          registrations :=
            s.registrations.map fun p => (p.1, { p.2 with sourceConfig := p.2.currentConfig })
          isSaving := false },
       r.2, false)
    else
      ({ s with isSaving := false }, r.2, true)

/-- The sequential await loop of saveSection: the registration was looked
up once before the loop, so each change directly runs onSave. -/
def runSectionSaves (ok : String → String → Option TVal → Bool) :
    List UnsavedChange → Bool × List UnsavedChange
  | [] => (true, [])
  | c :: rest =>
    if ok c.id c.key c.newValue then
      let r := runSectionSaves ok rest
      (r.1, c :: r.2)
    else
      (false, [c])

/-- saveSection from TangentProviderDev: a no-op when the entity is not
registered or while isSaving; otherwise run onSave for the unsaved changes
of this entity only and, on full success, overwrite the sourceConfig of
this entity with its currentConfig. -/
def saveSection (s : ProviderState) (id : String)
    (ok : String → String → Option TVal → Bool) :
    ProviderState × List UnsavedChange × Bool :=
  match mapGet s.registrations id with
  | none => (s, [], false)
  | some _ =>
    if s.isSaving then
      (s, [], false)
    else
      let sectionChanges := (unsavedChanges s).filter fun c => c.id == id
      let r := runSectionSaves ok sectionChanges
      if r.1 then
        ({ s with
            registrations :=
              match mapGet s.registrations id with
              | some reg => mapSet s.registrations id { reg with sourceConfig := reg.currentConfig }
              | none => s.registrations
            isSaving := false },
         r.2, false)
      else
        ({ s with isSaving := false }, r.2, true)

/-- resetSection from TangentProviderDev: when the entity is registered,
replace its Value Store entry with its sourceConfig, overwrite its
currentConfig with a copy of sourceConfig and invoke its onUpdate once per
key of sourceConfig with the source value. -/
def resetSection (s : ProviderState) (id : String) : ProviderState × List Ev :=
  match mapGet s.registrations id with
  | none => (s, [])
  | some reg =>
    let store := setStoredConfig s.store id reg.sourceConfig
    match mapGet s.registrations id with
    | some r =>
      ({ s with
          store := store
          registrations := mapSet s.registrations id { r with currentConfig := r.sourceConfig } },
       (objKeys r.sourceConfig).map fun key => Ev.onUpdate id key (jsGet r.sourceConfig key))
    | none => ({ s with store := store }, [])

/-- undo from TangentProviderDev: pop the history entry; when present,
write its oldValue back into the Value Store, restore the currentConfig of
the owning registration (when still registered) invoking its onUpdate, and
refresh the cached history state. -/
def undo (s : ProviderState) : ProviderState × List Ev :=
  let r := undoHistory s.hist
  let s := { s with hist := r.2 }
  match r.1 with
  | none => (s, [])
  | some entry =>
    let s := { s with store := updateStoredConfig s.store entry.id entry.key entry.oldValue }
    let (s, evs) :=
      match mapGet s.registrations entry.id with
      | some reg =>
        ({ s with
            registrations :=
              mapSet s.registrations entry.id
                { reg with currentConfig := mapSet reg.currentConfig entry.key entry.oldValue } },
         [Ev.onUpdate entry.id entry.key entry.oldValue])
      | none => (s, ([] : List Ev))
    let r2 := updateHistoryState s
    (r2.1, evs ++ r2.2)

/-- redo from TangentProviderDev: symmetric to undo, writing the newValue
forward. -/
def redo (s : ProviderState) : ProviderState × List Ev :=
  let r := redoHistory s.hist
  let s := { s with hist := r.2 }
  match r.1 with
  | none => (s, [])
  | some entry =>
    let s := { s with store := updateStoredConfig s.store entry.id entry.key entry.newValue }
    let (s, evs) :=
      match mapGet s.registrations entry.id with
      | some reg =>
        ({ s with
            registrations :=
              mapSet s.registrations entry.id
                { reg with currentConfig := mapSet reg.currentConfig entry.key entry.newValue } },
         [Ev.onUpdate entry.id entry.key entry.newValue])
      | none => (s, ([] : List Ev))
    let r2 := updateHistoryState s
    (r2.1, evs ++ r2.2)

/-- The state reached by one undo call, events discarded. -/
def undoState (s : ProviderState) : ProviderState := (undo s).1

/-- The state reached by one redo call, events discarded. -/
def redoState (s : ProviderState) : ProviderState := (redo s).1

/-- One user edit fed to updateValue (value is a TangentValue, so never
the JavaScript undefined; now is the Date.now() at the edit). -/
structure Edit where
  id : String
  key : String
  value : TVal
  now : Nat
deriving DecidableEq, Repr

/-- A sequence of edits applied through updateValue with skipHistory
false. -/
def applyEdits (s : ProviderState) (edits : List Edit) : ProviderState :=
  edits.foldl (fun acc e => (updateValue acc e.id e.key e.value false e.now).1) s

/-- The (entity, key) pair of an edit. -/
def editPair (e : Edit) : String × String := (e.id, e.key)

/-- The old value updateValue would read for (id, key): the currentConfig
entry of the registration, undefined when the entity is unregistered. -/
def oldAt (regs : RegMap) (id key : String) : Option TVal :=
  match mapGet regs id with
  | some reg => jsGet reg.currentConfig key
  | none => none

/-- The history entry an edit produces when applied in state s (the old
value read from s). -/
def entryFrom (s : ProviderState) (e : Edit) : HistoryEntry :=
  { id := e.id, key := e.key, oldValue := oldAt s.registrations e.id e.key,
    newValue := some e.value, timestamp := e.now }

/-- The registration-map effect of writing value v into currentConfig of
(id, key): the common shape of updateValue, undo and redo on the
registrations. -/
def setPair (regs : RegMap) (id key : String) (v : Option TVal) : RegMap :=
  match mapGet regs id with
  | some reg => mapSet regs id { reg with currentConfig := mapSet reg.currentConfig key v }
  | none => regs

/-- The raw currentConfig binding of (id, key) is exactly v whenever the
entity is registered. -/
def bindingOKAt (regs : RegMap) (id key : String) (v : Option TVal) : Prop :=
  ∀ r, mapGet regs id = some r → mapGet r.currentConfig key = some v

/-! ## Concrete states used by witnesses and counterexamples -/

/-- A one-key configuration a = 1. -/
def cfgA : JsObj := [("a", some (TVal.num 1))]

/-- A two-key configuration a = 1, b = 2. -/
def cfgAB : JsObj := [("a", some (TVal.num 1)), ("b", some (TVal.num 2))]

/-- The provider state at mount: no registrations, empty store, empty
history, idle. -/
def init0 : ProviderState :=
  { registrations := [], store := [], hist := emptyHist,
    historyState := { canUndo := false, canRedo := false }, isSaving := false }

/-- The registration record useTangent passes to register for a given
default configuration. -/
def regIn (id : String) (cfg : JsObj) : Registration :=
  { id := id, filePath := "f", originalConfig := cfg, currentConfig := cfg,
    sourceConfig := cfg }

/-- Register X with default a = 1, then re-register X with defaults
a = 1, b = 2 (the Value Store already holds the one-key entry). -/
def c7state : ProviderState :=
  register (register init0 (regIn "X" cfgA)) (regIn "X" cfgAB)

/-- The registration record c7state holds for X. -/
def c7reg : Registration :=
  { id := "X", filePath := "f", originalConfig := cfgAB, currentConfig := cfgA,
    sourceConfig := cfgAB }

/-- Register id with defaults a = 1, b = 2, then updateValue (id, a, 5):
the dirty-tracking example of the claim. -/
def c7inst : ProviderState :=
  (updateValue (register init0 (regIn "id" cfgAB)) "id" "a" (TVal.num 5) false 0).1

/-- Register X with defaults a = 1, b = 2, then updateValue (X, a, 5):
key a is dirty, key b is clean. -/
def c8state : ProviderState :=
  (updateValue (register init0 (regIn "X" cfgAB)) "X" "a" (TVal.num 5) false 0).1

/-- The registration record c8state holds for X. -/
def c8reg : Registration :=
  { id := "X", filePath := "f", originalConfig := cfgAB,
    currentConfig := [("a", some (TVal.num 5)), ("b", some (TVal.num 2))],
    sourceConfig := cfgAB }

/-- A provider state with one clean registration, an empty history and the
isSaving flag raised (the state seen by a re-entrant save call while an
onSave is pending). -/
def savingState : ProviderState :=
  { registrations := [("X", regIn "X" cfgA)], store := [("X", cfgA)],
    hist := emptyHist, historyState := { canUndo := false, canRedo := false },
    isSaving := true }

/-- Two registered entities X and Y, each with one edited key. -/
def twoDirty : ProviderState :=
  (updateValue
    ((updateValue (register (register init0 (regIn "X" cfgA)) (regIn "Y" cfgA))
        "X" "a" (TVal.num 5) false 0).1)
    "Y" "a" (TVal.num 6) false 1).1

/-- An onSave oracle that always succeeds. -/
def okAll : String → String → Option TVal → Bool := fun _ _ _ => true

/-- An onSave oracle that rejects every save of entity Y. -/
def okFailY : String → String → Option TVal → Bool := fun i _ _ => !(i == "Y")

/-- One registered entity with one edit recorded, used to exercise the
undo and redo round trip. -/
def c1state : ProviderState :=
  register init0 (regIn "X" cfgA)

/-- The single edit of the C1 witness. -/
def c1edits : List Edit := [{ id := "X", key := "a", value := TVal.num 5, now := 0 }]

/-- A history entry literal used by concrete history examples. -/
def histE (id key : String) (n : Int) (now : Nat) : HistoryEntry :=
  { id := id, key := key, oldValue := none, newValue := some (TVal.num n),
    timestamp := now }

/-- A hundred-entry log whose oldest entry is distinct from the rest, with
the cursor at the tail. -/
def full100 : HistState :=
  { history := histE "old" "k" 0 0 :: List.replicate 99 (histE "x" "k" 1 1),
    historyIndex := 99 }

/-- One hundred and one pushHistory argument tuples. -/
def pushes101 : List HistoryEntry := List.replicate 101 (histE "x" "k" 1 1)

/-- The log after pushing entries A, B, C from an empty log and undoing
twice: the cursor sits at A with B and C redoable. -/
def c4base : HistState :=
  (undoHistory (undoHistory (pushMany emptyHist
      [histE "x" "a" 1 1, histE "x" "b" 2 2, histE "x" "c" 3 3])).2).2

/-! ## Lemmas about the history log -/

theorem get?_append_cons {α : Type} (xs : List α) (y : α) (ys : List α) :
    (xs ++ y :: ys).get? xs.length = some y := by
  induction xs with
  | nil => rfl
  | cons a t ih => simpa using ih

theorem jsGet_mapSet_self (cfg : JsObj) (k : String) (v : Option TVal) :
    jsGet (mapSet cfg k v) k = v := by
  simp [jsGet, mapGet_mapSet_self]

theorem jsGet_mapSet_ne (cfg : JsObj) (k k' : String) (v : Option TVal) (h : k' ≠ k) :
    jsGet (mapSet cfg k v) k' = jsGet cfg k' := by
  simp [jsGet, mapGet_mapSet_ne cfg k k' v h]

theorem undoOutputs_subset : ∀ (n : Nat) (h : HistState) (e : HistoryEntry),
    e ∈ undoOutputs n h → e ∈ h.history := by
  intro n
  induction n with
  | zero => intro h e hmem; simp [undoOutputs] at hmem
  | succ n ih =>
    intro h e hmem
    by_cases hcu : canUndo h = true
    · unfold undoOutputs undoHistory at hmem
      rw [if_pos hcu] at hmem
      rcases hg : h.history.get? h.historyIndex.toNat with _ | e1
      · rw [hg] at hmem
        have hmem2 : e ∈ undoOutputs n ⟨h.history, h.historyIndex - 1⟩ := hmem
        exact ih ⟨h.history, h.historyIndex - 1⟩ e hmem2
      · rw [hg] at hmem
        have hmem2 : e ∈ e1 :: undoOutputs n ⟨h.history, h.historyIndex - 1⟩ := hmem
        rcases List.mem_cons.mp hmem2 with hh | hh
        · exact hh ▸ List.get?_mem hg
        · exact ih ⟨h.history, h.historyIndex - 1⟩ e hh
    · unfold undoOutputs undoHistory at hmem
      rw [if_neg hcu] at hmem
      exact ih h e hmem

theorem pushMany_cons (h : HistState) (e : HistoryEntry) (rest : List HistoryEntry) :
    pushMany h (e :: rest) =
      pushMany (pushHistory h e.id e.key e.oldValue e.newValue e.timestamp) rest := rfl

/-- At the tail of a full log, a push evicts the head and keeps the
cursor. -/
theorem pushHistory_at_tail_full (h : HistState) (id key : String) (ov nv : Option TVal)
    (now : Nat) (htail : h.historyIndex = (h.history.length : Int) - 1)
    (hfull : h.history.length = 100) :
    pushHistory h id key ov nv now =
      { history := (h.history ++ ([⟨id, key, ov, nv, now⟩] : List HistoryEntry)).drop 1,
        historyIndex := h.historyIndex } := by
  have hinner : (if h.historyIndex < (h.history.length : Int) - 1 then
      h.history.take (h.historyIndex + 1).toNat else h.history) = h.history :=
    if_neg (by omega)
  simp only [pushHistory, MAX_HISTORY, hinner]
  rw [if_pos (by
    simp only [List.length_append, List.length_cons, List.length_nil, hfull]
    omega)]

/-- At the tail of a log below capacity, a push appends and advances the
cursor. -/
theorem pushHistory_at_tail_small (h : HistState) (id key : String) (ov nv : Option TVal)
    (now : Nat) (htail : h.historyIndex = (h.history.length : Int) - 1)
    (hsmall : h.history.length < 100) :
    pushHistory h id key ov nv now =
      { history := h.history ++ ([⟨id, key, ov, nv, now⟩] : List HistoryEntry),
        historyIndex := h.historyIndex + 1 } := by
  have hinner : (if h.historyIndex < (h.history.length : Int) - 1 then
      h.history.take (h.historyIndex + 1).toNat else h.history) = h.history :=
    if_neg (by omega)
  simp only [pushHistory, MAX_HISTORY, hinner]
  rw [if_neg (by
    simp only [List.length_append, List.length_cons, List.length_nil]
    omega)]

theorem pushMany_spec : ∀ (ps : List HistoryEntry) (h : HistState),
    h.historyIndex = (h.history.length : Int) - 1 →
    h.history.length ≤ 100 →
    (pushMany h ps).history.length = min (h.history.length + ps.length) 100 ∧
    (pushMany h ps).historyIndex = (min (h.history.length + ps.length) 100 : Int) - 1 := by
  intro ps
  induction ps with
  | nil =>
    intro h h1 h2
    simp only [pushMany, List.foldl_nil, List.length_nil, Nat.add_zero]
    constructor
    · omega
    · omega
  | cons e rest ih =>
    intro h h1 h2
    rw [pushMany_cons]
    by_cases hfull : h.history.length = 100
    · rw [pushHistory_at_tail_full h e.id e.key e.oldValue e.newValue e.timestamp h1 hfull]
      have hlen : ((h.history ++
          [(⟨e.id, e.key, e.oldValue, e.newValue, e.timestamp⟩ : HistoryEntry)]).drop 1).length
          = 100 := by
        simp [hfull]
      obtain ⟨k1, k2⟩ := ih
        { history := (h.history ++
            [(⟨e.id, e.key, e.oldValue, e.newValue, e.timestamp⟩ : HistoryEntry)]).drop 1,
          historyIndex := h.historyIndex }
        (by dsimp only; rw [hlen]; omega) (by dsimp only; rw [hlen])
      rw [hlen] at k1 k2
      constructor
      · rw [k1]; simp only [List.length_cons]; omega
      · rw [k2]; simp only [List.length_cons]; omega
    · rw [pushHistory_at_tail_small h e.id e.key e.oldValue e.newValue e.timestamp h1 (by omega)]
      obtain ⟨k1, k2⟩ := ih
        { history := h.history ++
            [(⟨e.id, e.key, e.oldValue, e.newValue, e.timestamp⟩ : HistoryEntry)],
          historyIndex := h.historyIndex + 1 }
        (by dsimp only
            simp only [List.length_append, List.length_cons, List.length_nil]
            omega)
        (by dsimp only
            simp only [List.length_append, List.length_cons, List.length_nil]
            omega)
      simp only [List.length_append, List.length_cons, List.length_nil] at k1 k2
      constructor
      · rw [k1]; simp only [List.length_cons]; omega
      · rw [k2]; simp only [List.length_cons]; omega

theorem getLast?_drop_concat {α : Type} (l : List α) (a : α) (h : 1 ≤ l.length) :
    ((l ++ [a]).drop 1).getLast? = some a := by
  cases l with
  | nil => simp at h
  | cons x t => simp [List.getLast?_concat]

theorem pushHistory_getLast (h : HistState) (id key : String) (ov nv : Option TVal)
    (now : Nat) :
    (pushHistory h id key ov nv now).history.getLast? = some ⟨id, key, ov, nv, now⟩ := by
  simp only [pushHistory, MAX_HISTORY]
  by_cases hgt : ((if h.historyIndex < (h.history.length : Int) - 1 then
      h.history.take (h.historyIndex + 1).toNat else h.history) ++
      [(⟨id, key, ov, nv, now⟩ : HistoryEntry)]).length > 100
  · rw [if_pos hgt]
    refine getLast?_drop_concat _ _ ?_
    simp only [List.length_append, List.length_cons, List.length_nil] at hgt
    omega
  · rw [if_neg hgt]
    exact List.getLast?_concat _

/-! ## Claim C3 -/

/-- Claim C3: from a full log of 100 entries with the cursor at the tail,
one more recorded edit evicts exactly the oldest entry, retains exactly
100 entries, does not increment the cursor, and makes the evicted oldest
entry unreachable by any number of undo calls; and recording 101 edits
from an empty log retains exactly 100 entries. -/
theorem c3_log_eviction (h : HistState) (id key : String) (ov nv : Option TVal)
    (now : Nat) (e0 : HistoryEntry) (n : Nat) (ps : List HistoryEntry)
    (h1 : h.history.length = 100) (h2 : h.historyIndex = 99)
    (h3 : h.history.head? = some e0) (h4 : e0 ∉ h.history.drop 1)
    (h5 : e0 ≠ ⟨id, key, ov, nv, now⟩) (h6 : ps.length = 101) :
    (pushHistory h id key ov nv now).history =
      h.history.drop 1 ++ ([⟨id, key, ov, nv, now⟩] : List HistoryEntry) ∧
    (pushHistory h id key ov nv now).history.length = 100 ∧
    (pushHistory h id key ov nv now).historyIndex = h.historyIndex ∧
    e0 ∉ undoOutputs n (pushHistory h id key ov nv now) ∧
    (pushMany emptyHist ps).history.length = 100 := by
  have hpush := pushHistory_at_tail_full h id key ov nv now (by omega) h1
  have hdrop : (h.history ++ ([⟨id, key, ov, nv, now⟩] : List HistoryEntry)).drop 1 =
      h.history.drop 1 ++ ([⟨id, key, ov, nv, now⟩] : List HistoryEntry) :=
    List.drop_append_of_le_length (by omega)
  refine ⟨?_, ?_, ?_, ?_, ?_⟩
  · rw [hpush]
    exact hdrop
  · rw [hpush]
    dsimp only
    rw [hdrop]
    simp only [List.length_append, List.length_drop, List.length_cons, List.length_nil, h1]
  · rw [hpush]
  · intro hmem
    have hsub := undoOutputs_subset n _ e0 hmem
    rw [hpush] at hsub
    dsimp only at hsub
    rw [hdrop] at hsub
    rcases List.mem_append.mp hsub with hin | hin
    · exact h4 hin
    · exact h5 (List.mem_singleton.mp hin)
  · have hp := pushMany_spec ps emptyHist (by decide) (by decide)
    rw [hp.1, h6]
    decide

/-- Claim C3 witness: a concrete full log with a distinguished oldest
entry, and 101 concrete pushes from the empty log. -/
theorem c3_log_eviction_witness :
    (full100.history.length = 100 ∧ full100.historyIndex = 99 ∧
      full100.history.head? = some (histE "old" "k" 0 0) ∧
      histE "old" "k" 0 0 ∉ full100.history.drop 1 ∧
      histE "old" "k" 0 0 ≠ ⟨"y", "k2", none, some (TVal.num 7), 5⟩ ∧
      pushes101.length = 101) ∧
    ((pushHistory full100 "y" "k2" none (some (TVal.num 7)) 5).history =
      full100.history.drop 1 ++
        ([⟨"y", "k2", none, some (TVal.num 7), 5⟩] : List HistoryEntry) ∧
    (pushHistory full100 "y" "k2" none (some (TVal.num 7)) 5).history.length = 100 ∧
    (pushHistory full100 "y" "k2" none (some (TVal.num 7)) 5).historyIndex =
      full100.historyIndex ∧
    histE "old" "k" 0 0 ∉ undoOutputs 3 (pushHistory full100 "y" "k2" none (some (TVal.num 7)) 5) ∧
    (pushMany emptyHist pushes101).history.length = 100) :=
  ⟨⟨by decide, by decide, by decide, by decide, by decide, by decide⟩,
    c3_log_eviction full100 "y" "k2" none (some (TVal.num 7)) 5 (histE "old" "k" 0 0) 3
      pushes101 (by decide) (by decide) (by decide) (by decide) (by decide) (by decide)⟩

/-! ## Claim C4 -/

/-- Claim C4: recording an edit while the cursor is not at the tail first
discards all entries strictly after the cursor and then appends the new
entry, advancing the cursor; concretely, after recording A, B, C from an
empty log, undoing twice and recording D, redo returns nothing and
successive undo calls return D and then A. -/
theorem c4_redo_invalidation (h : HistState) (id key : String) (ov nv : Option TVal)
    (now : Nat) (h1 : -1 ≤ h.historyIndex)
    (h2 : h.historyIndex < (h.history.length : Int) - 1) (h3 : h.historyIndex ≤ 98) :
    pushHistory h id key ov nv now =
      { history := h.history.take (h.historyIndex + 1).toNat ++
          ([⟨id, key, ov, nv, now⟩] : List HistoryEntry),
        historyIndex := h.historyIndex + 1 } ∧
    (redoHistory (pushHistory c4base "x" "d" none (some (TVal.num 4)) 4)).1 = none ∧
    (undoHistory (pushHistory c4base "x" "d" none (some (TVal.num 4)) 4)).1 =
      some ⟨"x", "d", none, some (TVal.num 4), 4⟩ ∧
    (undoHistory (undoHistory (pushHistory c4base "x" "d" none (some (TVal.num 4)) 4)).2).1 =
      some (histE "x" "a" 1 1) := by
  refine ⟨?_, by decide, by decide, by decide⟩
  have hinner : (if h.historyIndex < (h.history.length : Int) - 1 then
      h.history.take (h.historyIndex + 1).toNat else h.history) =
      h.history.take (h.historyIndex + 1).toNat := if_pos h2
  simp only [pushHistory, MAX_HISTORY, hinner]
  rw [if_neg (by
    simp only [List.length_append, List.length_take, List.length_cons, List.length_nil]
    omega)]

/-- Claim C4 witness: a concrete log with redoable entries. -/
theorem c4_redo_invalidation_witness :
    (-1 ≤ c4base.historyIndex ∧ c4base.historyIndex < (c4base.history.length : Int) - 1 ∧
      c4base.historyIndex ≤ 98) ∧
    (pushHistory c4base "p" "q" none none 9 =
      { history := c4base.history.take (c4base.historyIndex + 1).toNat ++
          ([⟨"p", "q", none, none, 9⟩] : List HistoryEntry),
        historyIndex := c4base.historyIndex + 1 } ∧
    (redoHistory (pushHistory c4base "x" "d" none (some (TVal.num 4)) 4)).1 = none ∧
    (undoHistory (pushHistory c4base "x" "d" none (some (TVal.num 4)) 4)).1 =
      some ⟨"x", "d", none, some (TVal.num 4), 4⟩ ∧
    (undoHistory (undoHistory (pushHistory c4base "x" "d" none (some (TVal.num 4)) 4)).2).1 =
      some (histE "x" "a" 1 1)) :=
  ⟨⟨by decide, by decide, by decide⟩,
    c4_redo_invalidation c4base "p" "q" none none 9 (by decide) (by decide) (by decide)⟩

/-! ## Claim C6 -/

/-- Claim C6: save is single-flight. A saveAll call while isSaving is true
or with an empty unsaved-changes set returns the state unchanged, invokes
no onSave and logs nothing; a saveSection call while isSaving is true does
the same. -/
theorem c6_single_flight (s : ProviderState) (ok : String → String → Option TVal → Bool)
    (id : String) (h : s.isSaving = true ∨ unsavedChanges s = []) :
    saveAll s ok = (s, [], false) ∧
    (s.isSaving = true → saveSection s id ok = (s, [], false)) := by
  constructor
  · have hcond : (s.isSaving = true ∨ (unsavedChanges s).length = 0) := by
      rcases h with h | h
      · exact Or.inl h
      · exact Or.inr (by rw [h]; rfl)
    unfold saveAll
    rw [if_pos hcond]
  · intro hs
    unfold saveSection
    cases hm : mapGet s.registrations id with
    | none => rfl
    | some reg => rw [if_pos hs]

/-- Claim C6 witness: a concrete state with the isSaving flag raised
(which also has a nonempty registration, so the guard and not the dirty
set decides), exercised for both saveAll and saveSection. -/
theorem c6_single_flight_witness :
    (savingState.isSaving = true) ∧
    (saveAll savingState okAll = (savingState, [], false) ∧
      (savingState.isSaving = true → saveSection savingState "X" okAll =
        (savingState, [], false))) :=
  ⟨by decide, c6_single_flight savingState okAll "X" (Or.inl (by decide))⟩

/-! ## Claim C9 -/

/-- Claim C9 counterexample: on the empty history, the coordinator undo
and redo perform no refresh at all (the event list is empty, so no
setHistoryState call happens), contradicting the claim that the
externally observable history state is still refreshed. -/
theorem c9_counterexample :
    canUndo init0.hist = false ∧ canRedo init0.hist = false ∧
    (undo init0).2 = [] ∧ (redo init0).2 = [] ∧
    (undo init0).1 = init0 ∧ (redo init0).1 = init0 := by decide

/-- Claim C9 (amended): when the history log reports nothing to undo
(respectively redo), the coordinator undo (respectively redo) is a
complete no-op: the registry, Value Store, history and cached history
state are unchanged and no onUpdate and no refresh event is emitted; the
cached canUndo and canRedo flags nevertheless stay accurate because the
log itself is unchanged. -/
theorem c9_noop_when_empty (s t : ProviderState) (h1 : canUndo s.hist = false)
    (h2 : canRedo t.hist = false) :
    undo s = (s, []) ∧ redo t = (t, []) := by
  constructor
  · unfold undo undoHistory
    rw [if_neg (by simp [h1])]
  · unfold redo redoHistory
    rw [if_neg (by simp [h2])]

/-- Claim C9 witness: the empty-history provider state. -/
theorem c9_noop_when_empty_witness :
    (canUndo init0.hist = false ∧ canRedo init0.hist = false) ∧
    (undo init0 = (init0, []) ∧ redo init0 = (init0, [])) :=
  ⟨⟨by decide, by decide⟩, c9_noop_when_empty init0 init0 (by decide) (by decide)⟩

/-! ## Claim C10 -/

/-- Claim C10: updateValue on an unregistered entity still writes the
value into the Value Store and still records a history entry whose old
value is undefined, but invokes no onUpdate (only the history refresh is
observable) and leaves the registration records unchanged. -/
theorem c10_update_unregistered (s : ProviderState) (id key : String) (value : TVal)
    (now : Nat) (h : mapGet s.registrations id = none) :
    (updateValue s id key value false now).1.registrations = s.registrations ∧
    (updateValue s id key value false now).1.hist.history.getLast? =
      some { id := id, key := key, oldValue := none, newValue := some value,
             timestamp := now } ∧
    (updateValue s id key value false now).1.store =
      updateStoredConfig s.store id key (some value) ∧
    (getStoredConfig (updateValue s id key value false now).1.store id).map
      (fun cfg => jsGet cfg key) = some (some value) ∧
    (updateValue s id key value false now).2 = [Ev.refresh] := by
  have hval : (updateValue s id key value false now) =
      ({ s with
          hist := pushHistory s.hist id key none (some value) now
          historyState :=
            { canUndo := canUndo (pushHistory s.hist id key none (some value) now),
              canRedo := canRedo (pushHistory s.hist id key none (some value) now) }
          store := updateStoredConfig s.store id key (some value) },
        [Ev.refresh]) := by
    unfold updateValue
    rw [h]
    dsimp only
    rw [if_pos (by simp)]
    dsimp only [updateHistoryState]
    rw [h]
  rw [hval]
  refine ⟨rfl, pushHistory_getLast s.hist id key none (some value) now, rfl, ?_, rfl⟩
  unfold getStoredConfig updateStoredConfig
  rw [mapGet_mapSet_self]
  simp [jsGet_mapSet_self]

/-- Claim C10 witness: an update on the empty provider state. -/
theorem c10_update_unregistered_witness :
    (mapGet init0.registrations "Z" = none) ∧
    ((updateValue init0 "Z" "k" (TVal.num 9) false 5).1.registrations =
        init0.registrations ∧
      (updateValue init0 "Z" "k" (TVal.num 9) false 5).1.hist.history.getLast? =
        some { id := "Z", key := "k", oldValue := none, newValue := some (TVal.num 9),
               timestamp := 5 } ∧
      (updateValue init0 "Z" "k" (TVal.num 9) false 5).1.store =
        updateStoredConfig init0.store "Z" "k" (some (TVal.num 9)) ∧
      (getStoredConfig (updateValue init0 "Z" "k" (TVal.num 9) false 5).1.store "Z").map
        (fun cfg => jsGet cfg "k") = some (some (TVal.num 9)) ∧
      (updateValue init0 "Z" "k" (TVal.num 9) false 5).2 = [Ev.refresh]) :=
  ⟨by decide, c10_update_unregistered init0 "Z" "k" (TVal.num 9) 5 (by decide)⟩

/-! ## Lemmas about save reconciliation -/

theorem mapGet_isSome_of_mem {α : Type} :
    ∀ {l : List (String × α)} {k : String} {v : α}, (k, v) ∈ l → (mapGet l k).isSome := by
  intro l
  induction l with
  | nil => intro k v h; simp at h
  | cons p rest ih =>
    intro k v h
    obtain ⟨k1, v1⟩ := p
    by_cases hk : k1 = k
    · simp [mapGet, hk]
    · rcases List.mem_cons.mp h with he | he
      · rw [Prod.mk.injEq] at he
        exact absurd he.1.symm hk
      · simpa [mapGet, hk] using ih he

theorem unsaved_registered (s : ProviderState) :
    ∀ c ∈ unsavedChanges s, (mapGet s.registrations c.id).isSome := by
  intro c hc
  unfold unsavedChanges unsavedChangesOf at hc
  rw [List.mem_flatMap] at hc
  obtain ⟨p, hp, hcp⟩ := hc
  rw [List.mem_filterMap] at hcp
  obtain ⟨key, hkey, heq⟩ := hcp
  obtain ⟨pid, preg⟩ := p
  dsimp only at heq
  split at heq
  · rw [Option.some.injEq] at heq
    have hid : c.id = pid := by rw [← heq]
    rw [hid]
    exact mapGet_isSome_of_mem hp
  · cases heq

theorem runSaves_success (ok : String → String → Option TVal → Bool) :
    ∀ (l : List UnsavedChange) (regs : RegMap),
    (∀ c ∈ l, ok c.id c.key c.newValue = true) → (runSaves ok l regs).1 = true := by
  intro l
  induction l with
  | nil => intro regs hok; rfl
  | cons c rest ih =>
    intro regs hok
    unfold runSaves
    cases hm : mapGet regs c.id with
    | none => exact ih regs fun x hx => hok x (by simp [hx])
    | some r =>
      rw [if_pos (hok c (by simp))]
      exact ih regs fun x hx => hok x (by simp [hx])

theorem runSaves_fail (ok : String → String → Option TVal → Bool) :
    ∀ (l : List UnsavedChange) (regs : RegMap),
    (∀ c ∈ l, (mapGet regs c.id).isSome) →
    (∃ c ∈ l, ok c.id c.key c.newValue = false) →
    ∃ pre c post, l = pre ++ c :: post ∧
      (∀ d ∈ pre, ok d.id d.key d.newValue = true) ∧
      ok c.id c.key c.newValue = false ∧
      runSaves ok l regs = (false, pre ++ [c]) := by
  intro l
  induction l with
  | nil => intro regs hreg hex; simp at hex
  | cons c rest ih =>
    intro regs hreg hex
    obtain ⟨r0, hr0⟩ := Option.isSome_iff_exists.mp (hreg c (by simp))
    by_cases hc : ok c.id c.key c.newValue = true
    · have hex2 : ∃ d ∈ rest, ok d.id d.key d.newValue = false := by
        rcases hex with ⟨d, hd, hdf⟩
        rcases List.mem_cons.mp hd with rfl | hd2
        · rw [hc] at hdf; cases hdf
        · exact ⟨d, hd2, hdf⟩
      obtain ⟨pre, d, post, hsplit, hpre, hdf, hrun⟩ :=
        ih regs (fun x hx => hreg x (by simp [hx])) hex2
      refine ⟨c :: pre, d, post, by rw [hsplit]; simp, ?_, hdf, ?_⟩
      · intro x hx
        rcases List.mem_cons.mp hx with rfl | hx2
        · exact hc
        · exact hpre x hx2
      · unfold runSaves
        rw [hr0, if_pos hc, hrun]
        rfl
    · have hcf : ok c.id c.key c.newValue = false := by
        revert hc
        cases ok c.id c.key c.newValue <;> simp
      refine ⟨[], c, rest, rfl, by simp, hcf, ?_⟩
      unfold runSaves
      rw [hr0, if_neg (by simp [hcf])]
      rfl

theorem mapGet_syncMap :
    ∀ (l : RegMap) (k : String),
    mapGet (l.map fun p => (p.1, { p.2 with sourceConfig := p.2.currentConfig })) k =
      (mapGet l k).map fun r => { r with sourceConfig := r.currentConfig } := by
  intro l
  induction l with
  | nil => intro k; rfl
  | cons p rest ih =>
    intro k
    obtain ⟨k1, v1⟩ := p
    by_cases hk : k1 = k <;> simp [mapGet, hk, ih]

theorem changes_nil_of_synced :
    ∀ (l : RegMap), (∀ p ∈ l, p.2.sourceConfig = p.2.currentConfig) →
    unsavedChangesOf l = [] := by
  intro l
  induction l with
  | nil => intro h; rfl
  | cons p rest ih =>
    intro h
    have h1 : p.2.sourceConfig = p.2.currentConfig := h p (by simp)
    unfold unsavedChangesOf
    rw [List.flatMap_cons]
    have hinner : ((objKeys p.2.currentConfig).filterMap fun key =>
        let currentValue := jsGet p.2.currentConfig key
        let sourceValue := jsGet p.2.sourceConfig key
        if currentValue ≠ sourceValue then
          some ({ id := p.1, key := key, oldValue := sourceValue,
                  newValue := currentValue } : UnsavedChange)
        else
          none) = [] := by
      rw [List.filterMap_eq_nil_iff]
      intro key hkey
      simp [h1]
    rw [hinner]
    have := ih fun q hq => h q (by simp [hq])
    unfold unsavedChangesOf at this
    rw [this]
    rfl

/-! ## Claim C5 -/

/-- Claim C5: when saveAll runs (idle, nonempty dirty set) and every
onSave resolves, afterwards the source configuration of every registered
entity equals its current configuration at save time, the recomputed
unsaved-changes set is empty and the save state is idle again. -/
theorem c5_save_all_success (s : ProviderState)
    (ok : String → String → Option TVal → Bool) (id : String) (reg : Registration)
    (h1 : s.isSaving = false) (h2 : unsavedChanges s ≠ [])
    (h3 : ∀ c ∈ unsavedChanges s, ok c.id c.key c.newValue = true)
    (h4 : mapGet s.registrations id = some reg) :
    (saveAll s ok).1.registrations =
      (s.registrations.map fun p => (p.1, { p.2 with sourceConfig := p.2.currentConfig })) ∧
    unsavedChanges (saveAll s ok).1 = [] ∧
    (saveAll s ok).1.isSaving = false ∧
    mapGet (saveAll s ok).1.registrations id =
      some { reg with sourceConfig := reg.currentConfig } := by
  have hguard : ¬ (s.isSaving = true ∨ (unsavedChanges s).length = 0) := by
    rw [h1]
    simp only [Bool.false_eq_true, false_or]
    intro hh
    exact h2 (List.length_eq_zero.mp hh)
  have hrun : (runSaves ok (unsavedChanges s) s.registrations).1 = true :=
    runSaves_success ok (unsavedChanges s) s.registrations h3
  have hsave : (saveAll s ok).1 =
      { s with
        registrations :=
          s.registrations.map fun p => (p.1, { p.2 with sourceConfig := p.2.currentConfig })
        isSaving := false } := by
    unfold saveAll
    rw [if_neg hguard]
    dsimp only
    rw [if_pos hrun]
  rw [hsave]
  refine ⟨rfl, ?_, rfl, ?_⟩
  · show unsavedChangesOf _ = []
    refine changes_nil_of_synced _ ?_
    intro q hq
    rw [List.mem_map] at hq
    obtain ⟨p, hp, rfl⟩ := hq
    rfl
  · show mapGet (s.registrations.map fun p =>
      (p.1, { p.2 with sourceConfig := p.2.currentConfig })) id = _
    rw [mapGet_syncMap, h4]
    rfl

/-- Claim C5 witness: two dirty entities saved with an always-succeeding
onSave. -/
theorem c5_save_all_success_witness :
    (twoDirty.isSaving = false ∧ unsavedChanges twoDirty ≠ [] ∧
      (∀ c ∈ unsavedChanges twoDirty, okAll c.id c.key c.newValue = true) ∧
      mapGet twoDirty.registrations "X" =
        some { id := "X", filePath := "f", originalConfig := cfgA,
               currentConfig := [("a", some (TVal.num 5))], sourceConfig := cfgA }) ∧
    ((saveAll twoDirty okAll).1.registrations =
      (twoDirty.registrations.map fun p =>
        (p.1, { p.2 with sourceConfig := p.2.currentConfig })) ∧
    unsavedChanges (saveAll twoDirty okAll).1 = [] ∧
    (saveAll twoDirty okAll).1.isSaving = false ∧
    mapGet (saveAll twoDirty okAll).1.registrations "X" =
      some { id := "X", filePath := "f", originalConfig := cfgA,
             currentConfig := [("a", some (TVal.num 5))],
             sourceConfig := [("a", some (TVal.num 5))] }) :=
  ⟨⟨by decide, by decide, by decide, by decide⟩,
    c5_save_all_success twoDirty okAll "X"
      { id := "X", filePath := "f", originalConfig := cfgA,
        currentConfig := [("a", some (TVal.num 5))], sourceConfig := cfgA }
      (by decide) (by decide) (by decide) (by decide)⟩

/-! ## Claim C2 -/

/-- Claim C2: when saveAll runs (idle, nonempty dirty set) and some onSave
rejects, the run aborts at the first failure: onSave is invoked exactly
for the changes up to and including the first failing one, the error is
logged, no source baseline and no Value Store entry changes, the unsaved
changes (including those whose onSave already resolved) are unchanged
afterwards, and the save state returns to idle. -/
theorem c2_save_all_failure (s : ProviderState)
    (ok : String → String → Option TVal → Bool)
    (h1 : s.isSaving = false) (h2 : unsavedChanges s ≠ [])
    (h3 : ∃ c ∈ unsavedChanges s, ok c.id c.key c.newValue = false) :
    (saveAll s ok).1.registrations = s.registrations ∧
    (saveAll s ok).1.store = s.store ∧
    (saveAll s ok).1.isSaving = false ∧
    (saveAll s ok).2.2 = true ∧
    unsavedChanges (saveAll s ok).1 = unsavedChanges s ∧
    ∃ pre c post, unsavedChanges s = pre ++ c :: post ∧
      (∀ d ∈ pre, ok d.id d.key d.newValue = true) ∧
      ok c.id c.key c.newValue = false ∧
      (saveAll s ok).2.1 = pre ++ [c] := by
  have hguard : ¬ (s.isSaving = true ∨ (unsavedChanges s).length = 0) := by
    rw [h1]
    simp only [Bool.false_eq_true, false_or]
    intro hh
    exact h2 (List.length_eq_zero.mp hh)
  obtain ⟨pre, c, post, hsplit, hpre, hcf, hrun⟩ :=
    runSaves_fail ok (unsavedChanges s) s.registrations (unsaved_registered s) h3
  have hsave : saveAll s ok = ({ s with isSaving := false }, pre ++ [c], true) := by
    unfold saveAll
    rw [if_neg hguard]
    dsimp only
    rw [hrun]
    rfl
  rw [hsave]
  exact ⟨rfl, rfl, rfl, rfl, rfl, pre, c, post, hsplit, hpre, hcf, rfl⟩

/-- Claim C2 witness: two dirty entities where the save of entity Y
rejects; the already-saved X edit stays dirty. -/
theorem c2_save_all_failure_witness :
    (twoDirty.isSaving = false ∧ unsavedChanges twoDirty ≠ [] ∧
      (∃ c ∈ unsavedChanges twoDirty, okFailY c.id c.key c.newValue = false)) ∧
    ((saveAll twoDirty okFailY).1.registrations = twoDirty.registrations ∧
    (saveAll twoDirty okFailY).1.store = twoDirty.store ∧
    (saveAll twoDirty okFailY).1.isSaving = false ∧
    (saveAll twoDirty okFailY).2.2 = true ∧
    unsavedChanges (saveAll twoDirty okFailY).1 = unsavedChanges twoDirty ∧
    ∃ pre c post, unsavedChanges twoDirty = pre ++ c :: post ∧
      (∀ d ∈ pre, okFailY d.id d.key d.newValue = true) ∧
      okFailY c.id c.key c.newValue = false ∧
      (saveAll twoDirty okFailY).2.1 = pre ++ [c]) :=
  ⟨⟨by decide, by decide, by decide⟩,
    c2_save_all_failure twoDirty okFailY (by decide) (by decide) (by decide)⟩

/-! ## Claim C7 -/

/-- Claim C7 counterexample: after registering X with default a = 1 and
re-registering X with defaults a = 1, b = 2, the current value of (X, b)
is undefined while the source value is 2 — the pair differs — yet
unsavedChanges is empty, because the computation enumerates only the keys
of the current configuration. -/
theorem c7_dirty_set_counterexample :
    unsavedChanges c7state = [] ∧
    mapGet c7state.registrations "X" = some c7reg ∧
    jsGet c7reg.currentConfig "b" = none ∧
    jsGet c7reg.sourceConfig "b" = some (TVal.num 2) := by decide

/-- Claim C7 (amended): when registration identifiers are unique, the
unsaved-changes set is exactly the collection of (entity, key) pairs with
key among the keys of the current configuration whose current value
differs from the source value, each reported with old equal to the source
value and new equal to the current value; in particular, after
register (id, a = 1, b = 2) and updateValue (id, a, 5), unsavedChanges
holds exactly the one entry (id, a, old 1, new 5). -/
theorem c7_dirty_set (s : ProviderState) (c : UnsavedChange)
    (hnd : (s.registrations.map Prod.fst).Nodup) :
    (c ∈ unsavedChanges s ↔
      ∃ reg, mapGet s.registrations c.id = some reg ∧
        c.key ∈ objKeys reg.currentConfig ∧
        jsGet reg.currentConfig c.key ≠ jsGet reg.sourceConfig c.key ∧
        c.oldValue = jsGet reg.sourceConfig c.key ∧
        c.newValue = jsGet reg.currentConfig c.key) ∧
    unsavedChanges c7inst =
      [{ id := "id", key := "a", oldValue := some (TVal.num 1),
         newValue := some (TVal.num 5) }] := by
  refine ⟨?_, by decide⟩
  constructor
  · intro hc
    unfold unsavedChanges unsavedChangesOf at hc
    rw [List.mem_flatMap] at hc
    obtain ⟨p, hp, hcp⟩ := hc
    obtain ⟨pid, preg⟩ := p
    rw [List.mem_filterMap] at hcp
    obtain ⟨key, hkey, heq⟩ := hcp
    dsimp only at heq
    by_cases hcond : jsGet preg.currentConfig key ≠ jsGet preg.sourceConfig key
    · rw [if_pos hcond, Option.some.injEq] at heq
      subst heq
      exact ⟨preg, mem_mapGet hnd hp, hkey, hcond, rfl, rfl⟩
    · rw [if_neg hcond] at heq
      cases heq
  · intro hc
    obtain ⟨reg, hreg, hkey, hne, hold, hnew⟩ := hc
    unfold unsavedChanges unsavedChangesOf
    rw [List.mem_flatMap]
    refine ⟨(c.id, reg), mapGet_mem hreg, ?_⟩
    rw [List.mem_filterMap]
    refine ⟨c.key, hkey, ?_⟩
    dsimp only
    rw [if_pos hne, Option.some.injEq]
    obtain ⟨ci, ck, co, cn⟩ := c
    dsimp only at hold hnew ⊢
    rw [hold, hnew]

/-- Claim C7 witness: the concrete dirty-tracking instance of the claim,
checked through the characterization. -/
theorem c7_dirty_set_witness :
    ((c7inst.registrations.map Prod.fst).Nodup) ∧
    (({ id := "id", key := "a", oldValue := some (TVal.num 1),
        newValue := some (TVal.num 5) } : UnsavedChange) ∈ unsavedChanges c7inst ↔
      ∃ reg, mapGet c7inst.registrations "id" = some reg ∧
        "a" ∈ objKeys reg.currentConfig ∧
        jsGet reg.currentConfig "a" ≠ jsGet reg.sourceConfig "a" ∧
        some (TVal.num 1) = jsGet reg.sourceConfig "a" ∧
        some (TVal.num 5) = jsGet reg.currentConfig "a") ∧
    unsavedChanges c7inst =
      [{ id := "id", key := "a", oldValue := some (TVal.num 1),
         newValue := some (TVal.num 5) }] :=
  ⟨by decide,
    (c7_dirty_set c7inst
      { id := "id", key := "a", oldValue := some (TVal.num 1),
        newValue := some (TVal.num 5) } (by decide)).1,
    (c7_dirty_set c7inst
      { id := "id", key := "a", oldValue := some (TVal.num 1),
        newValue := some (TVal.num 5) } (by decide)).2⟩

/-! ## Claim C8 -/

/-- Claim C8 counterexample: X has keys a = 5 (edited, source 1) and
b = 2 (unchanged). unsavedChanges shows a as the only changed key, yet
resetSection invokes onUpdate twice, for a and also for the unchanged
key b, contradicting once per changed key. -/
theorem c8_reset_section_counterexample :
    unsavedChanges c8state =
      [{ id := "X", key := "a", oldValue := some (TVal.num 1),
         newValue := some (TVal.num 5) }] ∧
    mapGet c8state.registrations "X" = some c8reg ∧
    jsGet c8reg.currentConfig "b" = jsGet c8reg.sourceConfig "b" ∧
    (resetSection c8state "X").2 =
      [Ev.onUpdate "X" "a" (some (TVal.num 1)),
       Ev.onUpdate "X" "b" (some (TVal.num 2))] := by decide

/-- Claim C8 (amended): for a registered entity, resetSection overwrites
the Value Store entry and the current configuration with the source
configuration (so current equals source afterwards), leaves every other
entity and the history untouched, and invokes onUpdate exactly once per
key of the source configuration (changed or not) with the source
value. -/
theorem c8_reset_section (s : ProviderState) (id id2 : String) (reg : Registration)
    (h : mapGet s.registrations id = some reg) (hne : id2 ≠ id) :
    (resetSection s id).1.registrations =
      mapSet s.registrations id { reg with currentConfig := reg.sourceConfig } ∧
    mapGet (resetSection s id).1.registrations id =
      some { reg with currentConfig := reg.sourceConfig } ∧
    getStoredConfig (resetSection s id).1.store id = some reg.sourceConfig ∧
    mapGet (resetSection s id).1.registrations id2 = mapGet s.registrations id2 ∧
    getStoredConfig (resetSection s id).1.store id2 = getStoredConfig s.store id2 ∧
    (resetSection s id).1.hist = s.hist ∧
    (resetSection s id).2 =
      (objKeys reg.sourceConfig).map fun key => Ev.onUpdate id key (jsGet reg.sourceConfig key)
    := by
  have hreset : resetSection s id =
      ({ s with
          store := setStoredConfig s.store id reg.sourceConfig
          registrations :=
            mapSet s.registrations id { reg with currentConfig := reg.sourceConfig } },
        (objKeys reg.sourceConfig).map fun key =>
          Ev.onUpdate id key (jsGet reg.sourceConfig key)) := by
    unfold resetSection
    rw [h]
  rw [hreset]
  refine ⟨rfl, ?_, ?_, ?_, ?_, rfl, rfl⟩
  · exact mapGet_mapSet_self _ _ _
  · unfold getStoredConfig setStoredConfig
    exact mapGet_mapSet_self _ _ _
  · exact mapGet_mapSet_ne _ _ _ _ hne
  · unfold getStoredConfig setStoredConfig
    exact mapGet_mapSet_ne _ _ _ _ hne

/-- Claim C8 witness: reset entity X (with one edited and one clean key)
while another name Y is untouched. -/
theorem c8_reset_section_witness :
    (mapGet c8state.registrations "X" = some c8reg ∧ "Y" ≠ "X") ∧
    ((resetSection c8state "X").1.registrations =
      mapSet c8state.registrations "X" { c8reg with currentConfig := c8reg.sourceConfig } ∧
    mapGet (resetSection c8state "X").1.registrations "X" =
      some { c8reg with currentConfig := c8reg.sourceConfig } ∧
    getStoredConfig (resetSection c8state "X").1.store "X" = some c8reg.sourceConfig ∧
    mapGet (resetSection c8state "X").1.registrations "Y" =
      mapGet c8state.registrations "Y" ∧
    getStoredConfig (resetSection c8state "X").1.store "Y" =
      getStoredConfig c8state.store "Y" ∧
    (resetSection c8state "X").1.hist = c8state.hist ∧
    (resetSection c8state "X").2 =
      (objKeys c8reg.sourceConfig).map fun key =>
        Ev.onUpdate "X" key (jsGet c8reg.sourceConfig key)) :=
  ⟨⟨by decide, by decide⟩,
    c8_reset_section c8state "X" "Y" c8reg (by decide) (by decide)⟩

/-! ## Lemmas about setPair, oldAt and single edits -/

theorem setPair_of_none (regs : RegMap) (id key : String) (v : Option TVal)
    (h : mapGet regs id = none) : setPair regs id key v = regs := by
  unfold setPair
  rw [h]

theorem setPair_of_get (regs : RegMap) (id key : String) (v : Option TVal)
    (reg : Registration) (h : mapGet regs id = some reg) :
    setPair regs id key v =
      mapSet regs id { reg with currentConfig := mapSet reg.currentConfig key v } := by
  unfold setPair
  rw [h]

theorem setPair_binding_self (regs : RegMap) (id key : String) (v : Option TVal) :
    bindingOKAt (setPair regs id key v) id key v := by
  intro r hr
  cases hm : mapGet regs id with
  | none =>
    rw [setPair_of_none regs id key v hm, hm] at hr
    cases hr
  | some reg =>
    rw [setPair_of_get regs id key v reg hm, mapGet_mapSet_self, Option.some.injEq] at hr
    subst hr
    exact mapGet_mapSet_self _ _ _

theorem bindingOKAt_setPair_ne (regs : RegMap) (id key id2 key2 : String)
    (v w : Option TVal) (hne : (id2, key2) ≠ (id, key))
    (hb : bindingOKAt regs id2 key2 w) :
    bindingOKAt (setPair regs id key v) id2 key2 w := by
  intro r hr
  cases hm : mapGet regs id with
  | none =>
    rw [setPair_of_none regs id key v hm] at hr
    exact hb r hr
  | some reg =>
    rw [setPair_of_get regs id key v reg hm] at hr
    by_cases hid : id2 = id
    · subst hid
      rw [mapGet_mapSet_self, Option.some.injEq] at hr
      subst hr
      have hkey : key2 ≠ key := by
        intro he
        exact hne (by rw [he])
      dsimp only
      rw [mapGet_mapSet_ne _ _ _ _ hkey]
      exact hb reg hm
    · rw [mapGet_mapSet_ne _ _ _ _ hid] at hr
      exact hb r hr

theorem oldAt_setPair_ne (regs : RegMap) (id key id2 key2 : String) (v : Option TVal)
    (hne : (id2, key2) ≠ (id, key)) :
    oldAt (setPair regs id key v) id2 key2 = oldAt regs id2 key2 := by
  cases hm : mapGet regs id with
  | none => rw [setPair_of_none regs id key v hm]
  | some reg =>
    rw [setPair_of_get regs id key v reg hm]
    unfold oldAt
    by_cases hid : id2 = id
    · subst hid
      rw [mapGet_mapSet_self, hm]
      have hkey : key2 ≠ key := by
        intro he
        exact hne (by rw [he])
      dsimp only
      exact jsGet_mapSet_ne _ _ _ _ hkey
    · rw [mapGet_mapSet_ne _ _ _ _ hid]

theorem setPair_cancel (regs : RegMap) (id key : String) (w v : Option TVal)
    (hb : bindingOKAt regs id key v) :
    setPair (setPair regs id key w) id key v = regs := by
  cases hm : mapGet regs id with
  | none => rw [setPair_of_none regs id key w hm, setPair_of_none regs id key v hm]
  | some reg =>
    have hbv : mapGet reg.currentConfig key = some v := hb reg hm
    rw [setPair_of_get regs id key w reg hm,
      setPair_of_get _ id key v _ (mapGet_mapSet_self regs id _),
      mapSet_mapSet_self]
    dsimp only
    rw [mapSet_mapSet_self, mapSet_eq_self reg.currentConfig key v hbv]
    exact mapSet_eq_self regs id reg hm

theorem updateValue_spec (s : ProviderState) (e : Edit)
    (htail : s.hist.historyIndex = (s.hist.history.length : Int) - 1)
    (hlen : s.hist.history.length < 100)
    (heff : oldAt s.registrations e.id e.key ≠ some e.value) :
    (updateValue s e.id e.key e.value false e.now).1.hist.history =
      s.hist.history ++ [entryFrom s e] ∧
    (updateValue s e.id e.key e.value false e.now).1.hist.historyIndex =
      s.hist.historyIndex + 1 ∧
    (updateValue s e.id e.key e.value false e.now).1.registrations =
      setPair s.registrations e.id e.key (some e.value) := by
  cases hm : mapGet s.registrations e.id with
  | none =>
    have hov : (none : Option TVal) = oldAt s.registrations e.id e.key := by
      unfold oldAt
      rw [hm]
    have hval : updateValue s e.id e.key e.value false e.now =
        ({ s with
            hist := pushHistory s.hist e.id e.key none (some e.value) e.now
            historyState :=
              { canUndo := canUndo (pushHistory s.hist e.id e.key none (some e.value) e.now),
                canRedo := canRedo (pushHistory s.hist e.id e.key none (some e.value) e.now) }
            store := updateStoredConfig s.store e.id e.key (some e.value) },
          [Ev.refresh]) := by
      unfold updateValue
      rw [hm]
      dsimp only
      rw [if_pos ⟨by decide, hov ▸ heff⟩]
      dsimp only [updateHistoryState]
      rw [hm]
    rw [hval]
    rw [pushHistory_at_tail_small s.hist e.id e.key none (some e.value) e.now htail hlen]
    refine ⟨?_, rfl, ?_⟩
    · dsimp only
      unfold entryFrom
      rw [← hov]
    · dsimp only
      rw [setPair_of_none _ _ _ _ hm]
  | some reg =>
    have hov : jsGet reg.currentConfig e.key = oldAt s.registrations e.id e.key := by
      unfold oldAt
      rw [hm]
    have hval : updateValue s e.id e.key e.value false e.now =
        ({ s with
            hist := pushHistory s.hist e.id e.key (jsGet reg.currentConfig e.key)
              (some e.value) e.now
            historyState :=
              { canUndo := canUndo (pushHistory s.hist e.id e.key
                  (jsGet reg.currentConfig e.key) (some e.value) e.now),
                canRedo := canRedo (pushHistory s.hist e.id e.key
                  (jsGet reg.currentConfig e.key) (some e.value) e.now) }
            store := updateStoredConfig s.store e.id e.key (some e.value)
            registrations :=
              mapSet s.registrations e.id
                { reg with currentConfig := mapSet reg.currentConfig e.key (some e.value) } },
          [Ev.refresh, Ev.onUpdate e.id e.key (some e.value)]) := by
      unfold updateValue
      rw [hm]
      dsimp only
      rw [if_pos ⟨by decide, hov ▸ heff⟩]
      dsimp only [updateHistoryState]
      rw [hm]
      rfl
    rw [hval]
    rw [pushHistory_at_tail_small s.hist e.id e.key (jsGet reg.currentConfig e.key)
      (some e.value) e.now htail hlen]
    refine ⟨?_, rfl, ?_⟩
    · dsimp only
      unfold entryFrom
      rw [← hov]
    · dsimp only
      rw [setPair_of_get _ _ _ _ _ hm]

theorem applyEdits_cons (s : ProviderState) (e : Edit) (rest : List Edit) :
    applyEdits s (e :: rest) =
      applyEdits (updateValue s e.id e.key e.value false e.now).1 rest := rfl

theorem applyEdits_spec : ∀ (edits : List Edit) (s : ProviderState),
    s.hist.historyIndex = (s.hist.history.length : Int) - 1 →
    s.hist.history.length + edits.length ≤ 100 →
    ((edits.map editPair).Nodup) →
    (∀ e ∈ edits, oldAt s.registrations e.id e.key ≠ some e.value) →
    (applyEdits s edits).hist.history = s.hist.history ++ edits.map (entryFrom s) ∧
    (applyEdits s edits).hist.historyIndex = s.hist.historyIndex + edits.length ∧
    (∀ e ∈ edits, bindingOKAt (applyEdits s edits).registrations e.id e.key (some e.value)) ∧
    (∀ id key v, (∀ e ∈ edits, (e.id, e.key) ≠ (id, key)) →
      bindingOKAt s.registrations id key v →
      bindingOKAt (applyEdits s edits).registrations id key v) := by
  intro edits
  induction edits with
  | nil =>
    intro s h1 h2 h3 h4
    exact ⟨by simp [applyEdits], by simp [applyEdits],
      by intro e he; simp at he, fun id key v _ hb => hb⟩
  | cons e rest ih =>
    intro s h1 h2 h3 h4
    obtain ⟨u1, u2, u3⟩ := updateValue_spec s e h1 (by simp at h2; omega) (h4 e (by simp))
    rw [List.map_cons, List.nodup_cons] at h3
    have hpne : ∀ x ∈ rest, (x.id, x.key) ≠ (e.id, e.key) := by
      intro x hx hcontra
      apply h3.1
      have hxe : editPair x = editPair e := by
        unfold editPair
        rw [hcontra]
      rw [← hxe]
      exact List.mem_map_of_mem editPair hx
    have t1 : (updateValue s e.id e.key e.value false e.now).1.hist.historyIndex =
        ((updateValue s e.id e.key e.value false e.now).1.hist.history.length : Int) - 1 := by
      rw [u1, u2, h1]
      simp only [List.length_append, List.length_cons, List.length_nil]
      push_cast
      ring
    have t2 : (updateValue s e.id e.key e.value false e.now).1.hist.history.length +
        rest.length ≤ 100 := by
      rw [u1]
      simp only [List.length_append, List.length_cons, List.length_nil]
      simp only [List.length_cons] at h2
      omega
    have t4 : ∀ x ∈ rest,
        oldAt (updateValue s e.id e.key e.value false e.now).1.registrations x.id x.key ≠
          some x.value := by
      intro x hx
      rw [u3, oldAt_setPair_ne _ _ _ _ _ _ (hpne x hx)]
      exact h4 x (by simp [hx])
    obtain ⟨r1, r2, r3, r4⟩ :=
      ih (updateValue s e.id e.key e.value false e.now).1 t1 t2 h3.2 t4
    have hmapeq : rest.map (entryFrom (updateValue s e.id e.key e.value false e.now).1) =
        rest.map (entryFrom s) := by
      apply List.map_congr_left
      intro x hx
      unfold entryFrom
      rw [u3, oldAt_setPair_ne _ _ _ _ _ _ (hpne x hx)]
    refine ⟨?_, ?_, ?_, ?_⟩
    · rw [applyEdits_cons, r1, u1, hmapeq]
      simp
    · rw [applyEdits_cons, r2, u2]
      simp only [List.length_cons]
      push_cast
      ring
    · intro x hx
      rcases List.mem_cons.mp hx with rfl | hx2
      · rw [applyEdits_cons]
        refine r4 x.id x.key (some x.value) hpne ?_
        rw [u3]
        exact setPair_binding_self _ _ _ _
      · rw [applyEdits_cons]
        exact r3 x hx2
    · intro id key v hav hb
      rw [applyEdits_cons]
      refine r4 id key v (fun x hx => hav x (by simp [hx])) ?_
      rw [u3]
      exact bindingOKAt_setPair_ne _ _ _ _ _ _ _ (Ne.symm (hav e (by simp))) hb

theorem undo_spec (s : ProviderState) (e : HistoryEntry)
    (hcu : canUndo s.hist = true)
    (hget : s.hist.history.get? s.hist.historyIndex.toNat = some e) :
    (undoState s).hist = ⟨s.hist.history, s.hist.historyIndex - 1⟩ ∧
    (undoState s).registrations = setPair s.registrations e.id e.key e.oldValue := by
  unfold undoState undo undoHistory
  rw [if_pos hcu]
  dsimp only
  rw [hget]
  dsimp only
  cases hm : mapGet s.registrations e.id with
  | none =>
    dsimp only [updateHistoryState]
    exact ⟨rfl, by rw [setPair_of_none _ _ _ _ hm]⟩
  | some reg =>
    dsimp only [updateHistoryState]
    exact ⟨rfl, by rw [setPair_of_get _ _ _ _ _ hm]⟩

theorem redo_spec (s : ProviderState) (e : HistoryEntry)
    (hcr : canRedo s.hist = true)
    (hget : s.hist.history.get? (s.hist.historyIndex + 1).toNat = some e) :
    (redoState s).hist = ⟨s.hist.history, s.hist.historyIndex + 1⟩ ∧
    (redoState s).registrations = setPair s.registrations e.id e.key e.newValue := by
  unfold redoState redo redoHistory
  rw [if_pos hcr]
  dsimp only
  rw [hget]
  dsimp only
  cases hm : mapGet s.registrations e.id with
  | none =>
    dsimp only [updateHistoryState]
    exact ⟨rfl, by rw [setPair_of_none _ _ _ _ hm]⟩
  | some reg =>
    dsimp only [updateHistoryState]
    exact ⟨rfl, by rw [setPair_of_get _ _ _ _ _ hm]⟩

theorem redoState_congr (X Y : ProviderState) (hh : X.hist = Y.hist)
    (hr : X.registrations = Y.registrations) :
    (redoState X).hist = (redoState Y).hist ∧
    (redoState X).registrations = (redoState Y).registrations := by
  rcases hR : redoHistory Y.hist with ⟨eo, h2⟩
  have hRX : redoHistory X.hist = (eo, h2) := by rw [hh]; exact hR
  unfold redoState redo
  rw [hR, hRX]
  dsimp only
  cases eo with
  | none => exact ⟨rfl, hr⟩
  | some e =>
    dsimp only
    cases hm : mapGet Y.registrations e.id with
    | none =>
      have hmX : mapGet X.registrations e.id = none := by rw [hr]; exact hm
      rw [hmX]
      dsimp only [updateHistoryState]
      exact ⟨rfl, hr⟩
    | some reg =>
      have hmX : mapGet X.registrations e.id = some reg := by rw [hr]; exact hm
      rw [hmX]
      dsimp only [updateHistoryState]
      refine ⟨rfl, ?_⟩
      dsimp only
      rw [hr]

theorem roundTrip : ∀ (n : Nat) (seg pre rest : List HistoryEntry) (s : ProviderState),
    seg.length = n →
    s.hist.history = pre ++ seg ++ rest →
    s.hist.historyIndex = (pre.length : Int) + seg.length - 1 →
    ((seg.map fun e => (e.id, e.key)).Nodup) →
    (∀ e ∈ seg, bindingOKAt s.registrations e.id e.key e.newValue) →
    (redoState^[n] (undoState^[n] s)).hist = s.hist ∧
    (redoState^[n] (undoState^[n] s)).registrations = s.registrations := by
  intro n
  induction n with
  | zero =>
    intro seg pre rest s hn hh hi hnd hb
    exact ⟨rfl, rfl⟩
  | succ n ih =>
    intro seg pre rest s hn hh hi hnd hb
    obtain ⟨init, e, rfl⟩ : ∃ init e, seg = init ++ [e] := by
      rcases List.eq_nil_or_concat seg with h | ⟨init, e, h⟩
      · rw [h] at hn
        cases hn
      · exact ⟨init, e, by rw [h, List.concat_eq_append]⟩
    have hlinit : init.length = n := by
      simp only [List.length_append, List.length_cons, List.length_nil] at hn
      omega
    have hidx : s.hist.historyIndex = ((pre.length + init.length : Nat) : Int) := by
      rw [hi]
      simp only [List.length_append, List.length_cons, List.length_nil]
      push_cast
      ring
    have hcu : canUndo s.hist = true := by
      unfold canUndo
      rw [hidx]
      exact decide_eq_true (by positivity)
    have htoNat : s.hist.historyIndex.toNat = pre.length + init.length := by
      omega
    have hsplit2 : pre ++ (init ++ [e]) ++ rest = (pre ++ init) ++ (e :: rest) := by
      simp
    have hget : s.hist.history.get? s.hist.historyIndex.toNat = some e := by
      rw [htoNat, hh, hsplit2]
      have hlen2 : pre.length + init.length = (pre ++ init).length := by simp
      rw [hlen2]
      exact get?_append_cons _ _ _
    obtain ⟨u1, u2⟩ := undo_spec s e hcu hget
    rw [List.map_append, List.nodup_append] at hnd
    have hmemne : ∀ x ∈ init, (x.id, x.key) ≠ (e.id, e.key) := by
      intro x hx hcontra
      exact hnd.2.2 (List.mem_map_of_mem _ hx) (by simp [hcontra])
    obtain ⟨r1, r2⟩ := ih init pre (e :: rest) (undoState s) hlinit
      (by rw [u1]
          dsimp only
          rw [hh, hsplit2])
      (by rw [u1]
          dsimp only
          omega)
      hnd.1
      (by intro x hx
          rw [u2]
          exact bindingOKAt_setPair_ne _ _ _ _ _ _ _ (hmemne x hx) (hb x (by simp [hx])))
    rw [Function.iterate_succ_apply undoState n s, Function.iterate_succ_apply' redoState n _]
    obtain ⟨cg1, cg2⟩ :=
      redoState_congr (redoState^[n] (undoState^[n] (undoState s))) (undoState s) r1 r2
    rw [cg1, cg2]
    have hcr : canRedo (undoState s).hist = true := by
      rw [u1]
      unfold canRedo
      dsimp only
      apply decide_eq_true
      rw [hidx, hh, hsplit2]
      simp only [List.length_append, List.length_cons, List.length_nil]
      push_cast
      omega
    have hget2 : (undoState s).hist.history.get?
        ((undoState s).hist.historyIndex + 1).toNat = some e := by
      rw [u1]
      dsimp only
      have hstep : s.hist.historyIndex - 1 + 1 = s.hist.historyIndex := by ring
      rw [hstep]
      exact hget
    obtain ⟨d1, d2⟩ := redo_spec (undoState s) e hcr hget2
    constructor
    · rw [d1, u1]
      dsimp only
      have hstep : s.hist.historyIndex - 1 + 1 = s.hist.historyIndex := by ring
      rw [hstep]
    · rw [d2, u2]
      exact setPair_cancel _ _ _ _ _ (hb e (by simp))

/-! ## Claim C1 -/

/-- Claim C1: starting from an empty history, any sequence of N effective
edits through updateValue on N distinct (entity, key) pairs with N below
the 100-entry cap leaves canUndo true and canRedo false, and N undo calls
followed by N redo calls restore every registered entity (the whole
registration map, in particular every current configuration) to exactly
the state reached after the original sequence. -/
theorem c1_undo_redo_roundtrip (s : ProviderState) (edits : List Edit)
    (h0 : s.hist = emptyHist)
    (h1 : edits ≠ [])
    (h2 : edits.length < 100)
    (h3 : (edits.map editPair).Nodup)
    (h4 : ∀ e ∈ edits, oldAt s.registrations e.id e.key ≠ some e.value) :
    canUndo (applyEdits s edits).hist = true ∧
    canRedo (applyEdits s edits).hist = false ∧
    (redoState^[edits.length] (undoState^[edits.length] (applyEdits s edits))).registrations =
      (applyEdits s edits).registrations := by
  have hhist : s.hist.history = [] := by rw [h0]; rfl
  have hidx : s.hist.historyIndex = -1 := by rw [h0]; rfl
  obtain ⟨a1, a2, a3, a4⟩ := applyEdits_spec edits s
    (by rw [hhist, hidx]; rfl)
    (by rw [hhist]; simpa using Nat.le_of_lt h2)
    h3 h4
  have hN : 1 ≤ edits.length := List.length_pos.mpr h1
  have hlenmap : (edits.map (entryFrom s)).length = edits.length := List.length_map _ _
  refine ⟨?_, ?_, ?_⟩
  · unfold canUndo
    apply decide_eq_true
    rw [a2, hidx]
    omega
  · unfold canRedo
    apply decide_eq_false
    rw [a1, a2, hidx, hhist]
    simp only [List.nil_append, hlenmap]
    omega
  · obtain ⟨t1, t2⟩ := roundTrip edits.length (edits.map (entryFrom s)) [] []
      (applyEdits s edits)
      hlenmap
      (by rw [a1, hhist]; simp)
      (by rw [a2, hidx, hlenmap]
          simp only [List.length_nil]
          push_cast
          omega)
      (by have hpairs : ((edits.map (entryFrom s)).map fun x => (x.id, x.key)) =
            edits.map editPair := by
            rw [List.map_map]
            apply List.map_congr_left
            intro x hx
            rfl
          rw [hpairs]
          exact h3)
      (by intro x hx
          rw [List.mem_map] at hx
          obtain ⟨ed, hed, rfl⟩ := hx
          exact a3 ed hed)
    exact t2

/-- Claim C1 witness: one registered entity, one effective edit, one undo
and one redo. -/
theorem c1_undo_redo_roundtrip_witness :
    (c1state.hist = emptyHist ∧ c1edits ≠ [] ∧ c1edits.length < 100 ∧
      (c1edits.map editPair).Nodup ∧
      (∀ e ∈ c1edits, oldAt c1state.registrations e.id e.key ≠ some e.value)) ∧
    (canUndo (applyEdits c1state c1edits).hist = true ∧
      canRedo (applyEdits c1state c1edits).hist = false ∧
      (redoState^[c1edits.length] (undoState^[c1edits.length]
          (applyEdits c1state c1edits))).registrations =
        (applyEdits c1state c1edits).registrations) :=
  ⟨⟨by decide, by decide, by decide, by decide, by decide⟩,
    c1_undo_redo_roundtrip c1state c1edits (by decide) (by decide) (by decide) (by decide)
      (by decide)⟩

end Tangent
